import Mathlib

/-!
Verification of the parsing front-end of the blackfriday markdown processor
(`markdown.go`): the first-pass preprocessor (`firstPass`), the reference
definition parser (`isReference`), tab expansion (`expandTabs`), the inline
dispatch table built by `Markdown`, and the second-pass orchestration
(`secondPass`).

Byte strings are modelled as `List Nat` (one `Nat` per byte).  The Go
index-based `for` loops are modelled by structurally recursive functions that
carry an explicit iteration bound (`fuel`); every loop keeps its real guard
(`i < stop` etc.) inside the body, so with any sufficiently large bound the
function computes exactly what the Go loop computes, and the top-level
wrappers pass a bound that is large enough by construction.  A Go runtime
index-out-of-range abort is modelled by an explicit `panicked` outcome.
-/

namespace Blackfriday

/-- Byte at index `i` of a byte string, as in Go's `data[i]`; out-of-range
reads (which Go would abort on) are given the default `0` and are modelled
explicitly as `panicked` outcomes at the one spot the source can reach one. -/
def byteAt (l : List Nat) (i : Nat) : Nat := l.getD i 0

/-- Go slice `data[s:e]`. -/
def subList (l : List Nat) (s e : Nat) : List Nat := (l.drop s).take (e - s)

/-- Iteration core of a Go loop `for i < stop && p(data[i]) { i++ }`:
advances `i` while the guard holds, consuming one unit of fuel per step. -/
def scanWhileGo (l : List Nat) (stop : Nat) (p : Nat → Bool) : Nat → Nat → Nat
  | 0, i => i
  | fuel + 1, i => if i < stop ∧ p (byteAt l i) then scanWhileGo l stop p fuel (i + 1) else i

/-- Go loop `for i < stop && p(data[i]) { i++ }`, started at `i`; the fuel
`stop - i` bounds the iteration count exactly. -/
def scanWhile (l : List Nat) (stop : Nat) (p : Nat → Bool) (i : Nat) : Nat :=
  scanWhileGo l stop p (stop - i) i

/-- Iteration core of a Go loop `for j > lo && p(data[j]) { j-- }`. -/
def scanBackGo (l : List Nat) (lo : Nat) (p : Nat → Bool) : Nat → Nat → Nat
  | 0, j => j
  | fuel + 1, j => if lo < j ∧ p (byteAt l j) then scanBackGo l lo p fuel (j - 1) else j

/-- Go loop `for j > lo && p(data[j]) { j-- }`, started at `j`. -/
def scanBack (l : List Nat) (lo : Nat) (p : Nat → Bool) (j : Nat) : Nat :=
  scanBackGo l lo p j j

/-! Extension bit flags (`const ( EXTENSION_* = 1 << iota )` in the source). -/

def EXTENSION_NO_INTRA_EMPHASIS : Nat := 1
def EXTENSION_TABLES : Nat := 2
def EXTENSION_FENCED_CODE : Nat := 4
def EXTENSION_AUTOLINK : Nat := 8
def EXTENSION_STRIKETHROUGH : Nat := 16
def EXTENSION_LAX_HTML_BLOCKS : Nat := 32
def EXTENSION_SPACE_HEADERS : Nat := 64
def EXTENSION_HARD_LINE_BREAK : Nat := 128
def EXTENSION_NO_EXPAND_TABS : Nat := 256
def EXTENSION_TAB_SIZE_EIGHT : Nat := 512

def TAB_SIZE_DEFAULT : Nat := 4
def TAB_SIZE_EIGHT : Nat := 8

/-- ASCII lower-casing of one byte, the behaviour of Go's `bytes.ToLower`
on the ASCII range (the only range the reference labels in the claims use). -/
def toLowerByte (b : Nat) : Nat := if 65 ≤ b ∧ b ≤ 90 then b + 32 else b

/-- Case-folding of a label, as applied by `isReference` before storing. -/
def listToLower (l : List Nat) : List Nat := l.map toLowerByte

/-- Result of running the reference-definition parser `isReference` on the
byte run starting at the current scan position: either the line is not a
reference (`reject`, Go returns 0), or a reference is accepted (`accept`
with the returned byte count and the raw label / link / title spans), or the
Go code aborts with an index-out-of-range runtime error (`panicked`). -/
inductive RefOutcome where
  | panicked : RefOutcome
  | reject : RefOutcome
  | accept : Nat → List Nat → List Nat → List Nat → RefOutcome
deriving DecidableEq

/-- Final step of `isReference` (markdown.go lines 449-465, store excluded):
a never-established end-of-line means garbage after the link (return 0);
otherwise the reference is accepted with `lineEnd` bytes consumed and the
raw label / link / title spans. -/
def refFinish (data : List Nat) (idOffset idEnd linkOffset linkEnd titleOffset titleEnd lineEnd : Nat) : RefOutcome :=
  if lineEnd = 0 then .reject else
  .accept lineEnd (subList data idOffset idEnd) (subList data linkOffset linkEnd)
    (subList data titleOffset titleEnd)

/-- Title step of `isReference` (markdown.go lines 415-448): optional
space/tab spacer after an established line end, then an optional quoted or
parenthesized title scanned to its end of line, with one bounded step back
over trailing spaces to the closing delimiter; finding the closing delimiter
moves the consumed length to the end of the title line. -/
def refTitle (data : List Nat) (idOffset idEnd linkOffset linkEnd i lineEnd : Nat) : RefOutcome :=
  let i := if 0 < lineEnd then scanWhile data data.length (fun b => b == 32 || b == 9) (lineEnd + 1) else i
  if i + 1 < data.length ∧ (byteAt data i = 39 ∨ byteAt data i = 34 ∨ byteAt data i = 40) then
    let titleOffset := i + 1
    let i := scanWhile data data.length (fun b => b != 10 && b != 13) titleOffset
    let titleEnd :=
      if i + 1 < data.length ∧ byteAt data i = 10 ∧ byteAt data (i + 1) = 13 then i + 1 else i
    -- step back over trailing spaces and the closing delimiter
    let j := scanBack data titleOffset (fun b => b == 32 || b == 9) (i - 1)
    if titleOffset < j ∧ (byteAt data j = 39 ∨ byteAt data j = 34 ∨ byteAt data j = 41) then
      refFinish data idOffset idEnd linkOffset linkEnd titleOffset j titleEnd
    else
      refFinish data idOffset idEnd linkOffset linkEnd titleOffset titleEnd lineEnd
  else
    refFinish data idOffset idEnd linkOffset linkEnd 0 0 lineEnd

/-- Link step of `isReference` (markdown.go lines 384-413): the target is a
whitespace-free run, optionally preceded by `'<'` (skipped before
`linkOffset` is taken); the delimiter-strip test then reads
`data[linkOffset]`, which is past the end when the `'<'` was the last byte —
the Go runtime abort, modelled as `panicked`.  After the target, spaces and
tabs are skipped and anything other than end of input, a line break or a
title opener rejects the line; otherwise the end-of-line is computed
(including both bytes of a `\r\n` pair). -/
def refLink (data : List Nat) (idOffset idEnd i : Nat) : RefOutcome :=
  let i := if byteAt data i = 60 then i + 1 else i
  let linkOffset := i
  let i := scanWhile data data.length (fun b => b != 32 && b != 9 && b != 10 && b != 13) i
  let linkEnd := i
  if data.length ≤ linkOffset then .panicked else
  let lk :=
    if byteAt data linkOffset = 60 ∧ byteAt data (linkEnd - 1) = 62 then
      (linkOffset + 1, linkEnd - 1)
    else (linkOffset, linkEnd)
  -- optional spacer: (space | tab)* (newline | quote | paren)
  let i := scanWhile data data.length (fun b => b == 32 || b == 9) i
  if i < data.length ∧ byteAt data i ≠ 10 ∧ byteAt data i ≠ 13 ∧
      byteAt data i ≠ 39 ∧ byteAt data i ≠ 34 ∧ byteAt data i ≠ 40 then .reject else
  -- compute end-of-line
  let lineEnd := if data.length ≤ i ∨ byteAt data i = 13 ∨ byteAt data i = 10 then i else 0
  let lineEnd :=
    if i + 1 < data.length ∧ byteAt data i = 13 ∧ byteAt data (i + 1) = 10 then lineEnd + 1
    else lineEnd
  refTitle data idOffset idEnd lk.1 lk.2 i lineEnd

/-- Spacer step of `isReference` (markdown.go lines 362-382): a colon right
after the closing bracket, then spaces/tabs, at most one line break (a `\n`
directly after a `\r` counts as the same break), more spaces/tabs, and the
input must not be exhausted. -/
def refSpacer (data : List Nat) (idOffset idEnd : Nat) : RefOutcome :=
  let i := idEnd + 1
  if data.length ≤ i ∨ byteAt data i ≠ 58 then .reject else
  let i := scanWhile data data.length (fun b => b == 32 || b == 9) (i + 1)
  let i :=
    if i < data.length ∧ (byteAt data i = 10 ∨ byteAt data i = 13) then
      let i := i + 1
      if i < data.length ∧ byteAt data i = 10 ∧ byteAt data (i - 1) = 13 then i + 1 else i
    else i
  let i := scanWhile data data.length (fun b => b == 32 || b == 9) i
  if data.length ≤ i then .reject else
  refLink data idOffset idEnd i

/-- Direct translation of `isReference` (markdown.go lines 338-466), up to
but excluding the final store into `rndr.refs`; the later steps are the
stage functions above, called in source order.  Byte values: `' '` = 32,
`'\t'` = 9, `'\n'` = 10, `'\r'` = 13, `'['` = 91, `']'` = 93, `':'` = 58,
`'<'` = 60, `'>'` = 62, `'\''` = 39, `'"'` = 34, `'('` = 40, `')'` = 41. -/
def isReferenceOutcome (data : List Nat) : RefOutcome :=
  if data.length < 4 then .reject else
  -- up to 3 optional leading spaces
  let i := scanWhile data 3 (fun b => b == 32) 0
  -- id part: anything but a newline between brackets
  if byteAt data i ≠ 91 then .reject else
  let idOffset := i + 1
  let i := scanWhile data data.length (fun b => b != 10 && b != 13 && b != 93) idOffset
  if data.length ≤ i ∨ byteAt data i ≠ 93 then .reject else
  refSpacer data idOffset i

/-- The table `rndr.refs`: label (already case-folded) with link and title.
The Go `map` write `rndr.refs[id] = ...` is modelled by consing; lookups take
the most recent binding, so a later write overwrites an earlier one. -/
abbrev Refs := List (List Nat × List Nat × List Nat)

/-- Lookup in the reference table (`rndr.refs[id]`). -/
def lookupRef (refs : Refs) (id : List Nat) : Option (List Nat × List Nat) :=
  (List.find? (fun e => e.1 == id) refs).map (fun e => e.2)

/-- The full `isReference`, store step included: on acceptance the reference
is recorded under the case-folded label; `none` models the Go runtime abort. -/
def isReference (refs : Refs) (data : List Nat) : Option (Nat × Refs) :=
  match isReferenceOutcome data with
  | .panicked => none
  | .reject => some (0, refs)
  | .accept n id link title => some (n, ((listToLower id, link, title) :: refs : Refs))

/-! Tab expansion (`expandTabs`, markdown.go lines 500-554). -/

/-- Encoded length a UTF-8 lead byte announces (1 for invalid lead bytes),
the `first` table of Go's `utf8` package. -/
def utf8Sz (b0 : Nat) : Nat :=
  if b0 < 194 then 1 else if b0 ≤ 223 then 2 else if b0 ≤ 239 then 3
  else if b0 ≤ 244 then 4 else 1

/-- Lower bound the second byte must meet (restricted for the overlong and
surrogate lead bytes 0xE0 and 0xF0), the accept table of Go's `utf8`. -/
def utf8Lo (b0 : Nat) : Nat := if b0 = 224 then 160 else if b0 = 240 then 144 else 128

/-- Upper bound the second byte must meet (restricted for the surrogate and
out-of-range lead bytes 0xED and 0xF4), the accept table of Go's `utf8`. -/
def utf8Hi (b0 : Nat) : Nat := if b0 = 237 then 159 else if b0 = 244 then 143 else 191

/-- Size in bytes of the rune starting at `l[i]`, the count returned by Go's
`utf8.DecodeRune(line[i:])`: 1 for ASCII and for every invalid or truncated
encoding, otherwise the full multi-byte length. -/
def runeSize (l : List Nat) (i : Nat) : Nat :=
  let b0 := byteAt l i
  if b0 < 128 then 1 else
  if utf8Sz b0 = 1 then 1 else
  if l.length < i + utf8Sz b0 then 1 else
  if ¬(utf8Lo b0 ≤ byteAt l (i + 1) ∧ byteAt l (i + 1) ≤ utf8Hi b0) then 1 else
  if 3 ≤ utf8Sz b0 ∧ ¬(128 ≤ byteAt l (i + 2) ∧ byteAt l (i + 2) ≤ 191) then 1 else
  if utf8Sz b0 = 4 ∧ ¬(128 ≤ byteAt l (i + 3) ∧ byteAt l (i + 3) ≤ 191) then 1 else
  utf8Sz b0

/-- Number of spaces the slow-path space loop writes: it writes at least one
space, stopping as soon as the column counter reaches a multiple of
`tabSize` (for positive `tabSize` that is `tabSize - column % tabSize`). -/
def tabFill (column tabSize : Nat) : Nat := tabSize - column % tabSize

/-- Iteration core of the tab-detection loop at the top of `expandTabs`:
returns the length of the leading tab run (`pfx`) and whether a tab occurs
after a non-tab byte (`slowcase`). -/
def scanTabsGo (line : List Nat) : Nat → Nat → Nat → Nat × Bool
  | 0, _, pfx => (pfx, false)
  | fuel + 1, i, pfx =>
    if i < line.length then
      if byteAt line i = 9 then
        if pfx = i then scanTabsGo line fuel (i + 1) (pfx + 1) else (pfx, true)
      else scanTabsGo line fuel (i + 1) pfx
    else (pfx, false)

/-- The tab-detection loop at the top of `expandTabs`. -/
def scanTabs (line : List Nat) : Nat × Bool := scanTabsGo line line.length 0 0

/-- Iteration core of the inner run scan of the slow path: advances over
non-tab bytes one decoded rune at a time, counting one column per rune. -/
def runScanGo (line : List Nat) : Nat → Nat → Nat → Nat × Nat
  | 0, i, column => (i, column)
  | fuel + 1, i, column =>
    if i < line.length ∧ byteAt line i ≠ 9 then
      runScanGo line fuel (i + runeSize line i) (column + 1)
    else (i, column)

/-- Iteration core of the outer loop of the slow path of `expandTabs`: copy
the run up to the next tab, and replace each tab by spaces up to the next
multiple of `tabSize` of the column counter. -/
def expandTabsSlowGo (line : List Nat) (tabSize : Nat) : Nat → Nat → Nat → List Nat
  | 0, _, _ => []
  | fuel + 1, i, column =>
    if i < line.length then
      let r := runScanGo line (line.length - i) i column
      let chunk := subList line i r.1
      if r.1 < line.length then
        chunk ++ List.replicate (tabFill r.2 tabSize) 32 ++
          expandTabsSlowGo line tabSize fuel (r.1 + 1) (r.2 + tabFill r.2 tabSize)
      else chunk
    else []

/-- The slow path of `expandTabs` (rune-by-rune column counting). -/
def expandTabsSlow (line : List Nat) (tabSize : Nat) : List Nat :=
  expandTabsSlowGo line tabSize (line.length + 1) 0 0

/-- The fast path of `expandTabs`: all tabs sit in a leading run of length
`pfx`, so emit `pfx * tabSize` spaces and the remainder verbatim. -/
def expandTabsFast (line : List Nat) (tabSize : Nat) : List Nat :=
  List.replicate ((scanTabs line).1 * tabSize) 32 ++ line.drop (scanTabs line).1

/-- `expandTabs` (markdown.go lines 500-554): detect whether every tab sits
in the leading run and dispatch to the fast or the slow path. -/
def expandTabs (line : List Nat) (tabSize : Nat) : List Nat :=
  if (scanTabs line).2 then expandTabsSlow line tabSize else expandTabsFast line tabSize

/-! The first pass (`firstPass`, markdown.go lines 252-289). -/

/-- Tab size selected by the extension flags at the top of `firstPass`. -/
def fpTabSize (flags : Nat) : Nat :=
  if flags &&& EXTENSION_TAB_SIZE_EIGHT ≠ 0 then TAB_SIZE_EIGHT else TAB_SIZE_DEFAULT

/-- End of the current line body: `for end < len(input) && input[end] != '\n'
&& input[end] != '\r' { end++ }`. -/
def lineBodyEnd (input : List Nat) (beg : Nat) : Nat :=
  scanWhile input input.length (fun b => b != 10 && b != 13) beg

/-- Bytes a non-reference line contributes to the first-pass output: the
line body up to its terminator, tab-expanded unless disabled by
`EXTENSION_NO_EXPAND_TABS`, and nothing when the line body is empty (the
unconditional `'\n'` is emitted by the loop itself). -/
def fpLineBody (flags : Nat) (input : List Nat) (beg : Nat) : List Nat :=
  let e := lineBodyEnd input beg
  if beg < e then
    if flags &&& EXTENSION_NO_EXPAND_TABS = 0 then
      expandTabs (subList input beg e) (fpTabSize flags)
    else subList input beg e
  else []

/-- Position after the current line's terminator: step over one `'\r'` and
then one `'\n'` if present (so a `\r\n` pair is consumed whole). -/
def fpNextBeg (input : List Nat) (beg : Nat) : Nat :=
  let e := lineBodyEnd input beg
  let e := if e < input.length ∧ byteAt input e = 13 then e + 1 else e
  if e < input.length ∧ byteAt input e = 10 then e + 1 else e

/-- Iteration core of the `firstPass` loop over lines.  Each iteration either
skips an accepted reference definition, or copies the line body (tab-expanded
unless disabled), always emits exactly one `'\n'`, and steps over the original
terminator (`'\r'`, then `'\n'`).  `none` models the Go runtime abort
propagated from `isReference`; the fuel passed by the wrapper exceeds the
number of iterations, which is bounded by the input length because every
iteration advances `beg`. -/
def firstPassGo (flags : Nat) (input : List Nat) : Nat → Nat → List Nat → Refs → Option (List Nat × Refs)
  | 0, _, _, _ => none
  | fuel + 1, beg, out, refs =>
    if beg < input.length then
      match isReference refs (input.drop beg) with
      | none => none
      | some (n, refs') =>
        if 0 < n then firstPassGo flags input fuel (beg + n) out refs'
        else
          firstPassGo flags input fuel (fpNextBeg input beg)
            (out ++ fpLineBody flags input beg ++ [10]) refs'
    else some (out, refs)

/-- `firstPass`: extract references, expand tabs, normalize newlines, copy
everything else.  Returns the normalized buffer and the reference table. -/
def firstPass (flags : Nat) (input : List Nat) : Option (List Nat × Refs) :=
  firstPassGo flags input (input.length + 1) 0 [] []

/-- The first-pass output invariant: the buffer is a concatenation of lines,
each free of `'\n'` and `'\r'` and terminated by exactly one `'\n'`. -/
def cleanLines (out : List Nat) : Prop :=
  ∃ ls : List (List Nat), out = (ls.map (fun l => l ++ [10])).flatten ∧
    ∀ l ∈ ls, 10 ∉ l ∧ 13 ∉ l

/-! The renderer callback record, the inline dispatch table, the second pass
and the public entry point `Markdown` (markdown.go lines 100-144, 202-245,
292-309). -/

/-- The span-level handlers named in the inline dispatch table registration
in `Markdown`.  Their bodies are external collaborators; only their identity
matters for the registration logic. -/
inductive InlineHandler where
  | inlineEmphasis : InlineHandler
  | inlineCodeSpan : InlineHandler
  | inlineLineBreak : InlineHandler
  | inlineLink : InlineHandler
  | inlineLAngle : InlineHandler
  | inlineEscape : InlineHandler
  | inlineEntity : InlineHandler
  | inlineAutoLink : InlineHandler
deriving DecidableEq

/-- The `Renderer` callback record, reduced to what the specified core reads:
presence of each span-level slot consulted when registering inline parsers,
and the document header/footer slots.  A present header or footer slot is
modelled by the bytes it appends to the output buffer when invoked. -/
structure RendererSlots where
  Emphasis : Bool
  DoubleEmphasis : Bool
  TripleEmphasis : Bool
  CodeSpan : Bool
  LineBreak : Bool
  Image : Bool
  Link : Bool
  DocumentHeader : Option (List Nat)
  DocumentFooter : Option (List Nat)

/-- The empty 256-entry inline dispatch table (`rndr.inline`, zero value). -/
def emptyTable : Nat → Option InlineHandler := fun _ => none

/-- One assignment `rndr.inline[b] = h`. -/
def setInline (t : Nat → Option InlineHandler) (b : Nat) (h : InlineHandler) :
    Nat → Option InlineHandler :=
  fun x => if x = b then some h else t x

/-- The inline dispatch table registration sequence in `Markdown`
(markdown.go lines 216-239).  Byte values: `'*'` = 42, `'_'` = 95,
`'~'` = 126, `` '`' `` = 96, `'\n'` = 10, `'['` = 91, `'<'` = 60,
`'\\'` = 92, `'&'` = 38, `':'` = 58. -/
def buildInline (mk : RendererSlots) (extensions : Nat) : Nat → Option InlineHandler :=
  let t := emptyTable
  let t :=
    if mk.Emphasis || mk.DoubleEmphasis || mk.TripleEmphasis then
      let t := setInline t 42 .inlineEmphasis
      let t := setInline t 95 .inlineEmphasis
      if extensions &&& EXTENSION_STRIKETHROUGH ≠ 0 then setInline t 126 .inlineEmphasis else t
    else t
  let t := if mk.CodeSpan then setInline t 96 .inlineCodeSpan else t
  let t := if mk.LineBreak then setInline t 10 .inlineLineBreak else t
  let t := if mk.Image || mk.Link then setInline t 91 .inlineLink else t
  let t := setInline t 60 .inlineLAngle
  let t := setInline t 92 .inlineEscape
  let t := setInline t 38 .inlineEntity
  if extensions &&& EXTENSION_AUTOLINK ≠ 0 then setInline t 58 .inlineAutoLink else t

/-- Modelled from the spec: the block-level parser (`parseBlock`) invoked by
`secondPass` is an external collaborator whose source is not part of the
specified core.  It consumes the dispatch table, the reference table and the
normalized buffer, appends rendered bytes to the output, and leaves the
render context's nesting depth at some final value; it is modelled as an
arbitrary function returning the appended bytes and that final depth. -/
def BlockParser : Type :=
  (Nat → Option InlineHandler) → Refs → List Nat → Int → List Nat × Int

/-- `secondPass` (markdown.go lines 292-309): invoke the document header slot
if present, run the block parser, invoke the document footer slot if present,
then check the nesting-depth invariant: a non-zero depth aborts the
conversion (`panic`, modelled as `none`) instead of returning the buffer. -/
def secondPass (headerSlot footerSlot : Option (List Nat))
    (parseBlock : List Nat → Int → List Nat × Int) (nesting : Int)
    (input : List Nat) : Option (List Nat) :=
  let hdr := headerSlot.getD []
  let r := parseBlock input nesting
  let ftr := footerSlot.getD []
  if r.2 ≠ 0 then none else some (hdr ++ r.1 ++ ftr)

/-- Result of a `Markdown` call: the output buffer, the Go `nil` returned
when no renderer is supplied, or a runtime abort in one of the passes. -/
inductive MdResult where
  | output : List Nat → MdResult
  | nilResult : MdResult
  | panicked : MdResult
deriving DecidableEq

/-- The public entry point `Markdown` (markdown.go lines 202-245): with a nil
renderer return nil at once; otherwise build the render context (reference
table, dispatch table, nesting depth 0), run the first pass, then the second
pass. -/
def Markdown (parseBlock : BlockParser) (input : List Nat)
    (renderer : Option RendererSlots) (extensions : Nat) : MdResult :=
  match renderer with
  | none => .nilResult
  | some mk =>
    let table := buildInline mk extensions
    match firstPass extensions input with
    | none => .panicked
    | some fr =>
      match secondPass mk.DocumentHeader mk.DocumentFooter (parseBlock table fr.2) 0 fr.1 with
      | none => .panicked
      | some out => .output out

/-! Concrete inputs used by the end-to-end claims. -/

/-- The bytes of `"[1]: http://example.com \"Example\"\nSee [text][1].\n"`. -/
def c1input : List Nat :=
  [91, 49, 93, 58, 32, 104, 116, 116, 112, 58, 47, 47, 101, 120, 97, 109, 112, 108,
   101, 46, 99, 111, 109, 32, 34, 69, 120, 97, 109, 112, 108, 101, 34, 10,
   83, 101, 101, 32, 91, 116, 101, 120, 116, 93, 91, 49, 93, 46, 10]

/-- The bytes of the target `"http://example.com"`. -/
def c1link : List Nat := [104, 116, 116, 112, 58, 47, 47, 101, 120, 97, 109, 112, 108, 101, 46, 99, 111, 109]

/-- The bytes of the title `"Example"`. -/
def c1title : List Nat := [69, 120, 97, 109, 112, 108, 101]

/-- The bytes of the second line `"See [text][1].\n"`. -/
def c1second : List Nat := [83, 101, 101, 32, 91, 116, 101, 120, 116, 93, 91, 49, 93, 46, 10]

/-- C1, counterexample: on the end-to-end input the normalized first-pass
buffer is not just the second line `"See [text][1].\n"` — the reference
line's unconsumed `'\n'` terminator contributes a leading empty line. -/
theorem c1_buffer_counterexample :
    (firstPass 0 c1input).map Prod.fst ≠ some c1second := by decide

/-- C1 (amended): the first pass records exactly one reference, under label
`"1"`, with target `"http://example.com"` and title `"Example"` (delimiters
stripped); `isReference` returns 33 bytes consumed, which skips the
reference line up to but not including its terminating `'\n'`; the
normalized first-pass buffer is `"\nSee [text][1].\n"` — the reference
line's content emits nothing, but its leftover terminator yields one empty
line ahead of the second line. -/
theorem c1_firstPass_reference_extraction :
    isReference [] c1input = some (33, [([49], c1link, c1title)]) ∧
    byteAt c1input 33 = 10 ∧
    firstPass 0 c1input = some (10 :: c1second, [([49], c1link, c1title)]) ∧
    lookupRef [([49], c1link, c1title)] [49] = some (c1link, c1title) := by decide

/-- The bytes of `"[a]: <http://x>\n"`, a reference whose target is wrapped
in angle brackets. -/
def c3input : List Nat := [91, 97, 93, 58, 32, 60, 104, 116, 116, 112, 58, 47, 47, 120, 62, 10]

/-- C3, evaluation at the failing input: for the angle-bracket target
`<http://x>` the stored target is `"http://x>"` — the leading `'<'` is
skipped before `linkOffset` is taken, so the delimiter-stripping condition
`data[linkOffset] == '<'` never sees the opening bracket and the trailing
`'>'` is retained, contradicting the claim that both delimiters are
stripped. -/
theorem c3_angle_target_keeps_closing_delimiter :
    isReference [] c3input =
      some (15, [([97], [104, 116, 116, 112, 58, 47, 47, 120, 62], [])]) ∧
    ([104, 116, 116, 112, 58, 47, 47, 120, 62] : List Nat) ≠ [104, 116, 116, 112, 58, 47, 47, 120] := by
  exact ⟨by decide, by decide⟩

/-- C6: at the end of a conversion `secondPass` checks the nesting depth
left by the block parser after the document footer slot has run: a non-zero
depth aborts the conversion (the Go code panics, modelled by `none`) instead
of returning a truncated buffer, and a zero depth returns the accumulated
header ++ body ++ footer buffer normally. -/
theorem c6_nesting_invariant_checked (headerSlot footerSlot : Option (List Nat))
    (parseBlock : List Nat → Int → List Nat × Int) (nesting : Int) (input : List Nat) :
    secondPass headerSlot footerSlot parseBlock nesting input =
      if (parseBlock input nesting).2 = 0 then
        some (headerSlot.getD [] ++ (parseBlock input nesting).1 ++ footerSlot.getD [])
      else none := by
  unfold secondPass
  by_cases h : (parseBlock input nesting).2 = 0 <;> simp [h]

/-- C9: `Markdown` with a nil renderer returns nil immediately: the result
does not depend on the input, the extension bitmask or the external block
parser, so no reference table, dispatch table or pass observable through
them is ever consulted. -/
theorem c9_nil_renderer_returns_nil (parseBlock : BlockParser) (input : List Nat)
    (extensions : Nat) :
    Markdown parseBlock input none extensions = .nilResult := rfl

set_option maxHeartbeats 1000000 in
/-- C5: for every renderer and extension set the dispatch table built by
`Markdown` registers the emphasis handler under `'*'` and `'_'` exactly when
one of the three emphasis-family slots is set, and under `'~'` exactly when
additionally the strikethrough extension is enabled; the code-span handler
under `` '`' `` exactly when `CodeSpan` is set; the line-break handler under
`'\n'` exactly when `LineBreak` is set; the link handler under `'['` exactly
when `Image` or `Link` is set; handlers under `'<'`, `'\\'` and `'&'`
unconditionally; the autolink handler under `':'` exactly when the autolink
extension is enabled; and no handler under any other byte. -/
theorem c5_dispatch_table_registration (mk : RendererSlots) (extensions : Nat) :
    (buildInline mk extensions 42 =
      if mk.Emphasis || mk.DoubleEmphasis || mk.TripleEmphasis then
        some .inlineEmphasis else none) ∧
    (buildInline mk extensions 95 =
      if mk.Emphasis || mk.DoubleEmphasis || mk.TripleEmphasis then
        some .inlineEmphasis else none) ∧
    (buildInline mk extensions 126 =
      if (mk.Emphasis || mk.DoubleEmphasis || mk.TripleEmphasis) = true ∧
          extensions &&& EXTENSION_STRIKETHROUGH ≠ 0 then
        some .inlineEmphasis else none) ∧
    (buildInline mk extensions 96 = if mk.CodeSpan then some .inlineCodeSpan else none) ∧
    (buildInline mk extensions 10 = if mk.LineBreak then some .inlineLineBreak else none) ∧
    (buildInline mk extensions 91 =
      if mk.Image || mk.Link then some .inlineLink else none) ∧
    buildInline mk extensions 60 = some .inlineLAngle ∧
    buildInline mk extensions 92 = some .inlineEscape ∧
    buildInline mk extensions 38 = some .inlineEntity ∧
    (buildInline mk extensions 58 =
      if extensions &&& EXTENSION_AUTOLINK ≠ 0 then some .inlineAutoLink else none) ∧
    (∀ b : Nat, b ∉ ([42, 95, 126, 96, 10, 91, 60, 92, 38, 58] : List Nat) →
      buildInline mk extensions b = none) := by
  refine ⟨?_, ?_, ?_, ?_, ?_, ?_, ?_, ?_, ?_, ?_, ?_⟩
  all_goals try
    (intro b hb
     simp only [List.mem_cons, List.not_mem_nil, or_false, not_or] at hb
     obtain ⟨h1, h2, h3, h4, h5, h6, h7, h8, h9, h10⟩ := hb
     simp [buildInline, setInline, emptyTable, ite_apply,
       h1, h2, h3, h4, h5, h6, h7, h8, h9, h10]
     done)
  all_goals simp [buildInline, setInline, emptyTable, ite_apply]
  all_goals split_ifs <;> simp_all

/-- Witness for the dispatch-table claim at a concrete renderer, extension
set and unregistered byte. -/
theorem c5_dispatch_table_registration_witness :
    buildInline ⟨true, false, false, true, true, true, true, none, none⟩ 0 7 = none :=
  ((c5_dispatch_table_registration ⟨true, false, false, true, true, true, true, none, none⟩
    0).2.2.2.2.2.2.2.2.2.2 7 (by decide))

/-- An accepted `refFinish` always reports a positive consumed count. -/
theorem refFinish_accept_pos {data : List Nat}
    {idOffset idEnd linkOffset linkEnd titleOffset titleEnd lineEnd : Nat}
    {n : Nat} {id link title : List Nat}
    (h : refFinish data idOffset idEnd linkOffset linkEnd titleOffset titleEnd lineEnd =
      .accept n id link title) : 0 < n := by
  unfold refFinish at h
  split at h
  · exact RefOutcome.noConfusion h
  · rename_i hne
    injection h with h1 h2 h3 h4
    omega

/-- An accepted `refTitle` always reports a positive consumed count. -/
theorem refTitle_accept_pos {data : List Nat} {idOffset idEnd linkOffset linkEnd i lineEnd : Nat}
    {n : Nat} {id link title : List Nat}
    (h : refTitle data idOffset idEnd linkOffset linkEnd i lineEnd = .accept n id link title) :
    0 < n := by
  unfold refTitle at h
  dsimp only at h
  repeat' split at h
  all_goals first
    | exact RefOutcome.noConfusion h
    | exact refFinish_accept_pos h

/-- An accepted `refLink` always reports a positive consumed count. -/
theorem refLink_accept_pos {data : List Nat} {idOffset idEnd i : Nat}
    {n : Nat} {id link title : List Nat}
    (h : refLink data idOffset idEnd i = .accept n id link title) : 0 < n := by
  unfold refLink at h
  dsimp only at h
  repeat' split at h
  all_goals first
    | exact RefOutcome.noConfusion h
    | exact refTitle_accept_pos h

/-- An accepted `refSpacer` always reports a positive consumed count. -/
theorem refSpacer_accept_pos {data : List Nat} {idOffset idEnd : Nat}
    {n : Nat} {id link title : List Nat}
    (h : refSpacer data idOffset idEnd = .accept n id link title) : 0 < n := by
  unfold refSpacer at h
  dsimp only at h
  repeat' split at h
  all_goals first
    | exact RefOutcome.noConfusion h
    | exact refLink_accept_pos h

/-- An accepted reference always reports a positive consumed count. -/
theorem isReferenceOutcome_accept_pos {data : List Nat} {n : Nat} {id link title : List Nat}
    (h : isReferenceOutcome data = .accept n id link title) : 0 < n := by
  unfold isReferenceOutcome at h
  dsimp only at h
  repeat' split at h
  all_goals first
    | exact RefOutcome.noConfusion h
    | exact refSpacer_accept_pos h

/-- C8: an input whose first line opens a bracketed label (after at most
three leading spaces) but hits a `'\n'`, a `'\r'` or the end of the input
before the closing `']'` is not a reference: `isReference` consumes 0 bytes
and records nothing.  The hypotheses state, in terms of the scan the code
itself performs, that a `'['` is found and that the scan for `']'` stops at
the end of the input or at a byte other than `']'` (a line break). -/
theorem c8_missing_close_bracket_rejected (refs : Refs) (data : List Nat)
    (hopen : byteAt data (scanWhile data 3 (fun b => b == 32) 0) = 91)
    (hclose : data.length ≤ scanWhile data data.length (fun b => b != 10 && b != 13 && b != 93)
        (scanWhile data 3 (fun b => b == 32) 0 + 1) ∨
      byteAt data (scanWhile data data.length (fun b => b != 10 && b != 13 && b != 93)
        (scanWhile data 3 (fun b => b == 32) 0 + 1)) ≠ 93) :
    isReference refs data = some (0, refs) := by
  have hout : isReferenceOutcome data = .reject := by
    by_cases h4 : data.length < 4
    · unfold isReferenceOutcome
      rw [if_pos h4]
    · unfold isReferenceOutcome
      rw [if_neg h4]
      dsimp only
      rw [if_neg (not_not_intro hopen), if_pos hclose]
  unfold isReference
  rw [hout]

/-- Witness for the missing-close-bracket claim at the concrete input
`"[ab\ncd]: x\n"` (the label's line breaks before its `']'`). -/
theorem c8_missing_close_bracket_rejected_witness :
    isReference [] [91, 97, 98, 10, 99, 100, 93, 58, 32, 120, 10] =
      some (0, []) :=
  c8_missing_close_bracket_rejected [] [91, 97, 98, 10, 99, 100, 93, 58, 32, 120, 10]
    (by decide) (by decide)

/-- C10: `isReference` mutates the reference table only on acceptance: a
call returning 0 consumed bytes leaves the table exactly unchanged, and a
call returning a positive count prepends exactly one new binding, keyed by
the case-folded label of the accepted reference. -/
theorem c10_refs_mutated_only_on_acceptance (refs : Refs) (data : List Nat) (n : Nat)
    (refs' : Refs) (h : isReference refs data = some (n, refs')) :
    (n = 0 → refs' = refs) ∧
    (0 < n → ∃ id link title, isReferenceOutcome data = .accept n id link title ∧
      refs' = (listToLower id, link, title) :: refs) := by
  unfold isReference at h
  cases ho : isReferenceOutcome data with
  | panicked => rw [ho] at h; exact Option.noConfusion h
  | reject =>
    rw [ho] at h
    simp only [Option.some.injEq, Prod.mk.injEq] at h
    obtain ⟨hn, hr⟩ := h
    refine ⟨fun _ => hr.symm, fun hpos => absurd hpos (by omega)⟩
  | accept m id link title =>
    rw [ho] at h
    simp only [Option.some.injEq, Prod.mk.injEq] at h
    obtain ⟨hn, hr⟩ := h
    subst hn
    have hpos := isReferenceOutcome_accept_pos ho
    exact ⟨fun h0 => absurd h0 (by omega), fun _ => ⟨id, link, title, rfl, hr.symm⟩⟩

/-- Witness for the mutation claim at the concrete accepted input
`"[x]: y\n"`. -/
theorem c10_refs_mutated_only_on_acceptance_witness :
    ((6 = 0 → ([([120], [121], [])] : Refs) = []) ∧
     (0 < 6 → ∃ id link title,
        isReferenceOutcome [91, 120, 93, 58, 32, 121, 10] = .accept 6 id link title ∧
        ([([120], [121], [])] : Refs) = (listToLower id, link, title) :: [])) :=
  c10_refs_mutated_only_on_acceptance [] [91, 120, 93, 58, 32, 121, 10] 6
    [([120], [121], [])] (by decide)

/-- C4: references are stored under the case-folded (lowercased) label: two
accepted definitions whose raw labels agree after case folding are stored
under the same key, and after processing both, a lookup under that key finds
the definition parsed later — it overwrites the earlier one (before the
second store, the same lookup still found the first definition). -/
theorem c4_case_folded_label_last_definition_wins (refs : Refs) (data1 data2 : List Nat)
    (n1 n2 : Nat) (refs1 refs2 : Refs) (id1 id2 link1 link2 title1 title2 : List Nat)
    (h1 : isReferenceOutcome data1 = .accept n1 id1 link1 title1)
    (h2 : isReferenceOutcome data2 = .accept n2 id2 link2 title2)
    (hr1 : isReference refs data1 = some (n1, refs1))
    (hr2 : isReference refs1 data2 = some (n2, refs2))
    (hcase : listToLower id1 = listToLower id2) :
    lookupRef refs1 (listToLower id1) = some (link1, title1) ∧
    lookupRef refs2 (listToLower id1) = some (link2, title2) := by
  unfold isReference at hr1 hr2
  rw [h1] at hr1
  rw [h2] at hr2
  simp only [Option.some.injEq, Prod.mk.injEq] at hr1 hr2
  obtain ⟨-, hrefs1⟩ := hr1
  obtain ⟨-, hrefs2⟩ := hr2
  subst hrefs1
  subst hrefs2
  constructor
  · simp [lookupRef, List.find?]
  · rw [hcase]
    simp [lookupRef, List.find?]

/-- Witness for the case-folding claim at the concrete inputs
`"[Foo]: u1\n"` and `"[FOO]: u2\n"`: both are stored under `"foo"` and the
second target wins. -/
theorem c4_case_folded_label_last_definition_wins_witness :
    lookupRef [([102, 111, 111], [117, 49], [])] (listToLower [70, 111, 111]) =
      some ([117, 49], []) ∧
    lookupRef [([102, 111, 111], [117, 50], []), ([102, 111, 111], [117, 49], [])]
      (listToLower [70, 111, 111]) = some ([117, 50], []) :=
  c4_case_folded_label_last_definition_wins [] [91, 70, 111, 111, 93, 58, 32, 117, 49, 10]
    [91, 70, 79, 79, 93, 58, 32, 117, 50, 10] 9 9
    [([102, 111, 111], [117, 49], [])]
    [([102, 111, 111], [117, 50], []), ([102, 111, 111], [117, 49], [])]
    [70, 111, 111] [70, 79, 79] [117, 49] [117, 50] [] []
    (by decide) (by decide) (by decide) (by decide) (by decide)

/-- Every index passed over by `scanWhileGo` satisfied the scan predicate. -/
theorem scanWhileGo_sat (l : List Nat) (stop : Nat) (p : Nat → Bool) :
    ∀ (fuel i k : Nat), i ≤ k → k < scanWhileGo l stop p fuel i → p (byteAt l k) = true := by
  intro fuel
  induction fuel with
  | zero =>
    intro i k hik hk
    simp only [scanWhileGo] at hk
    omega
  | succ f ih =>
    intro i k hik hk
    rw [scanWhileGo] at hk
    split at hk
    · rename_i hguard
      rcases Nat.eq_or_lt_of_le hik with rfl | hlt
      · exact hguard.2
      · exact ih (i + 1) k hlt hk
    · omega

/-- Every index passed over by `scanWhile` satisfied the scan predicate. -/
theorem scanWhile_sat (l : List Nat) (stop : Nat) (p : Nat → Bool) (i k : Nat)
    (hik : i ≤ k) (hk : k < scanWhile l stop p i) : p (byteAt l k) = true :=
  scanWhileGo_sat l stop p (stop - i) i k hik hk

/-- A byte read in bounds is an element of the byte string. -/
theorem byteAt_mem {l : List Nat} {k : Nat} (hk : k < l.length) : byteAt l k ∈ l := by
  unfold byteAt
  rw [List.getD_eq_getElem l 0 hk]
  exact List.getElem_mem hk

/-- Every element of a Go slice `l[s:e]` is a byte of `l` at an index in
`[s, e)`. -/
theorem subList_mem {l : List Nat} {s e b : Nat} (hb : b ∈ subList l s e) :
    ∃ k, s ≤ k ∧ k < e ∧ k < l.length ∧ b = byteAt l k := by
  unfold subList at hb
  obtain ⟨j, hj, hbj⟩ := List.mem_iff_getElem.mp hb
  have hj' := hj
  rw [List.length_take, List.length_drop] at hj'
  have hje : j < e - s := lt_of_lt_of_le hj' inf_le_left
  have hjl : j < l.length - s := lt_of_lt_of_le hj' inf_le_right
  have hjd : j < (l.drop s).length := by
    rw [List.length_drop]; omega
  have hsj : s + j < l.length := by omega
  refine ⟨s + j, by omega, by omega, hsj, ?_⟩
  rw [List.getElem_take, List.getElem_drop] at hbj
  unfold byteAt
  rw [List.getD_eq_getElem l 0 hsj]
  exact hbj.symm

/-- Every byte emitted by the slow path of `expandTabs` is a space or a byte
of the line. -/
theorem expandTabsSlowGo_mem {line : List Nat} {ts : Nat} :
    ∀ (fuel i col b : Nat), b ∈ expandTabsSlowGo line ts fuel i col → b = 32 ∨ b ∈ line := by
  intro fuel
  induction fuel with
  | zero =>
    intro i col b hb
    simp [expandTabsSlowGo] at hb
  | succ f ih =>
    intro i col b hb
    rw [expandTabsSlowGo] at hb
    split at hb
    · dsimp only at hb
      split at hb
      · rcases List.mem_append.mp hb with h | h
        · rcases List.mem_append.mp h with h2 | h2
          · obtain ⟨k, -, -, hk, rfl⟩ := subList_mem h2
            exact Or.inr (byteAt_mem hk)
          · exact Or.inl (List.eq_of_mem_replicate h2)
        · exact ih _ _ _ h
      · obtain ⟨k, -, -, hk, rfl⟩ := subList_mem hb
        exact Or.inr (byteAt_mem hk)
    · simp at hb

/-- Every byte emitted by `expandTabs` is a space or a byte of the line. -/
theorem expandTabs_mem {line : List Nat} {ts b : Nat} (hb : b ∈ expandTabs line ts) :
    b = 32 ∨ b ∈ line := by
  unfold expandTabs at hb
  split at hb
  · exact expandTabsSlowGo_mem _ _ _ _ hb
  · unfold expandTabsFast at hb
    rcases List.mem_append.mp hb with h | h
    · exact Or.inl (List.eq_of_mem_replicate h)
    · exact Or.inr (List.mem_of_mem_drop h)

/-- The bytes a line contributes to the first-pass output contain neither
`'\n'` nor `'\r'`: the line body stops at the first terminator byte, and tab
expansion only adds spaces. -/
theorem fpLineBody_no_nl (flags : Nat) (input : List Nat) (beg : Nat) :
    ∀ b ∈ fpLineBody flags input beg, b ≠ 10 ∧ b ≠ 13 := by
  intro b hb
  have hsub : ∀ c ∈ subList input beg (lineBodyEnd input beg), c ≠ 10 ∧ c ≠ 13 := by
    intro c hc
    obtain ⟨k, hk1, hk2, hk3, rfl⟩ := subList_mem hc
    unfold lineBodyEnd at hk2
    have hp := scanWhile_sat input input.length (fun b => b != 10 && b != 13) beg k hk1 hk2
    simp only [Bool.and_eq_true, bne_iff_ne, ne_eq] at hp
    exact hp
  unfold fpLineBody at hb
  dsimp only at hb
  split at hb
  · split at hb
    · rcases expandTabs_mem hb with h | h
      · subst h; exact ⟨by omega, by omega⟩
      · exact hsub b h
    · exact hsub b hb
  · simp at hb

/-- The empty buffer is a concatenation of zero lines. -/
theorem cleanLines_nil : cleanLines [] := ⟨[], rfl, by simp⟩

/-- Appending one clean line body and one `'\n'` preserves the invariant. -/
theorem cleanLines_append {out body : List Nat} (h : cleanLines out)
    (hbody : ∀ b ∈ body, b ≠ 10 ∧ b ≠ 13) : cleanLines (out ++ body ++ [10]) := by
  obtain ⟨ls, rfl, hls⟩ := h
  refine ⟨ls ++ [body], ?_, ?_⟩
  · rw [List.map_append, List.flatten_append]
    simp
  · intro l hl
    rcases List.mem_append.mp hl with h | h
    · exact hls l h
    · simp only [List.mem_singleton] at h
      subst h
      constructor
      · intro hmem; exact absurd rfl (hbody 10 hmem).1
      · intro hmem; exact absurd rfl (hbody 13 hmem).2

/-- A buffer satisfying the invariant contains no `'\r'`. -/
theorem cleanLines_no_cr {out : List Nat} (h : cleanLines out) : 13 ∉ out := by
  obtain ⟨ls, rfl, hls⟩ := h
  intro hmem
  rw [List.mem_flatten] at hmem
  obtain ⟨chunk, hc, hbc⟩ := hmem
  rw [List.mem_map] at hc
  obtain ⟨l, hl, rfl⟩ := hc
  rcases List.mem_append.mp hbc with h | h
  · exact (hls l hl).2 h
  · simp at h

/-- A nonempty buffer satisfying the invariant ends with `'\n'`. -/
theorem cleanLines_last {out : List Nat} (h : cleanLines out) (hne : out ≠ []) :
    out.getLast? = some 10 := by
  obtain ⟨ls, rfl, -⟩ := h
  rcases List.eq_nil_or_concat ls with rfl | ⟨init, lst, rfl⟩
  · simp at hne
  · rw [List.concat_eq_append, List.map_append, List.flatten_append]
    simp only [List.map_cons, List.map_nil, List.flatten_cons, List.flatten_nil,
      List.append_nil]
    rw [← List.append_assoc]
    exact List.getLast?_concat _

/-- The first-pass loop preserves the clean-lines invariant of the output
buffer: each iteration appends either nothing (a consumed reference) or one
terminator-free line body followed by exactly one `'\n'`. -/
theorem firstPassGo_clean (flags : Nat) (input : List Nat) :
    ∀ (fuel beg : Nat) (out : List Nat) (refs : Refs) (res : List Nat × Refs),
      cleanLines out → firstPassGo flags input fuel beg out refs = some res →
      cleanLines res.1 := by
  intro fuel
  induction fuel with
  | zero =>
    intro beg out refs res hc h
    simp [firstPassGo] at h
  | succ f ih =>
    intro beg out refs res hc h
    rw [firstPassGo] at h
    split at h
    · cases hm : isReference refs (input.drop beg) with
      | none => rw [hm] at h; exact Option.noConfusion h
      | some pr =>
        obtain ⟨n, refs'⟩ := pr
        rw [hm] at h
        dsimp only at h
        split at h
        · exact ih _ _ _ _ hc h
        · exact ih _ _ _ _ (cleanLines_append hc (fpLineBody_no_nl flags input beg)) h
    · simp only [Option.some.injEq] at h
      rw [← h]
      exact hc

/-- C2: for every input and flag set, a completed first pass yields a buffer
containing no `'\r'`, structured as lines each free of terminator bytes and
terminated by exactly one `'\n'` (so a nonempty buffer always ends in
`'\n'`, also when the input's last line had no terminator); and the concrete
input `"a\r\nb\rc\nd"`, mixing `\r\n`, lone `\r` and lone `\n` endings,
normalizes to `"a\nb\nc\nd\n"` — `'\n'` exclusively, four logical lines. -/
theorem c2_first_pass_newline_normalization :
    (∀ (flags : Nat) (input out : List Nat) (refs : Refs),
        firstPass flags input = some (out, refs) →
        13 ∉ out ∧ cleanLines out ∧ (out ≠ [] → out.getLast? = some 10)) ∧
    (firstPass 0 [97, 13, 10, 98, 13, 99, 10, 100] =
        some ([97, 10, 98, 10, 99, 10, 100, 10], []) ∧
      List.count 10 [97, 10, 98, 10, 99, 10, 100, 10] = 4 ∧
      13 ∉ [97, 10, 98, 10, 99, 10, 100, 10]) := by
  constructor
  · intro flags input out refs h
    have hclean : cleanLines out :=
      firstPassGo_clean flags input (input.length + 1) 0 [] [] (out, refs) cleanLines_nil h
    exact ⟨cleanLines_no_cr hclean, hclean, cleanLines_last hclean⟩
  · exact ⟨by decide, by decide, by decide⟩

/-- Witness for the newline-normalization claim at the concrete single-line
input `"a"` (no terminator): the buffer is `"a\n"`. -/
theorem c2_first_pass_newline_normalization_witness :
    13 ∉ [97, 10] ∧ cleanLines [97, 10] ∧
      (([97, 10] : List Nat) ≠ [] → List.getLast? [97, 10] = some 10) :=
  c2_first_pass_newline_normalization.1 0 [97] [97, 10] [] (by decide)

/-- The announced lead-byte length is between 1 and 4. -/
theorem utf8Sz_bounds (b0 : Nat) : 1 ≤ utf8Sz b0 ∧ utf8Sz b0 ≤ 4 := by
  unfold utf8Sz
  split_ifs <;> omega

/-- The rune decoder always reports at least one byte consumed. -/
theorem runeSize_pos (l : List Nat) (i : Nat) : 1 ≤ runeSize l i := by
  have hb := utf8Sz_bounds (byteAt l i)
  unfold runeSize
  dsimp only
  split_ifs <;> omega

/-- The rune decoder never runs past the end of the line. -/
theorem runeSize_le {l : List Nat} {i : Nat} (hi : i < l.length) :
    i + runeSize l i ≤ l.length := by
  have hb := utf8Sz_bounds (byteAt l i)
  unfold runeSize
  dsimp only
  split_ifs <;> omega

/-- The inner run scan stops immediately on a tab. -/
theorem runScanGo_tab {l : List Nat} {i : Nat} (htab : byteAt l i = 9) (fuel col : Nat) :
    runScanGo l fuel i col = (i, col) := by
  cases fuel with
  | zero => rfl
  | succ f =>
    rw [runScanGo]
    rw [if_neg]
    intro hg
    exact hg.2 htab

/-- With no tab at or after the scan position, the inner run scan runs to
the end of the line. -/
theorem runScanGo_no_tab {l : List Nat} :
    ∀ (fuel i col : Nat), i ≤ l.length → l.length ≤ fuel + i →
      (∀ k, i ≤ k → k < l.length → byteAt l k ≠ 9) →
      (runScanGo l fuel i col).1 = l.length := by
  intro fuel
  induction fuel with
  | zero =>
    intro i col hle hfuel hno
    simp only [runScanGo]
    omega
  | succ f ih =>
    intro i col hle hfuel hno
    rw [runScanGo]
    by_cases hi : i < l.length
    · rw [if_pos ⟨hi, hno i le_rfl hi⟩]
      have hpos := runeSize_pos l i
      have hle' := runeSize_le hi
      exact ih (i + runeSize l i) (col + 1) hle' (by omega)
        (fun k hk1 hk2 => hno k (by omega) hk2)
    · rw [if_neg (fun hg => hi hg.1)]
      simp only
      omega

/-- In the leading tab run, every byte is a tab. -/
theorem byteAt_rep_lt {p : Nat} {rest : List Nat} {k : Nat} (hk : k < p) :
    byteAt (List.replicate p 9 ++ rest) k = 9 := by
  unfold byteAt
  have hlen : k < (List.replicate p 9 ++ rest).length := by
    rw [List.length_append, List.length_replicate]; omega
  rw [List.getD_eq_getElem _ 0 hlen]
  have hk' : k < (List.replicate p 9).length := by rw [List.length_replicate]; omega
  rw [List.getElem_append_left hk']
  exact List.getElem_replicate 9 hk'

/-- After the leading tab run of a line whose remainder is tab-free, no byte
is a tab. -/
theorem byteAt_rep_ge {p : Nat} {rest : List Nat} {k : Nat} (hrest : 9 ∉ rest)
    (hk1 : p ≤ k) (hk2 : k < (List.replicate p 9 ++ rest).length) :
    byteAt (List.replicate p 9 ++ rest) k ≠ 9 := by
  unfold byteAt
  rw [List.getD_eq_getElem _ 0 hk2]
  have hge : (List.replicate p 9).length ≤ k := by rw [List.length_replicate]; omega
  rw [List.getElem_append_right hge]
  intro h9
  apply hrest
  rw [← h9]
  exact List.getElem_mem _

/-- Once past the leading run with the recorded run length fixed, the
tab-detection loop of `expandTabs` finds no further tab and reports no
slow case. -/
theorem scanTabsGo_after {p : Nat} {rest : List Nat} (hrest : 9 ∉ rest) :
    ∀ (fuel i : Nat), p < i →
      scanTabsGo (List.replicate p 9 ++ rest) fuel i p = (p, false) := by
  intro fuel
  induction fuel with
  | zero => intro i hi; rfl
  | succ f ih =>
    intro i hi
    rw [scanTabsGo]
    by_cases hil : i < (List.replicate p 9 ++ rest).length
    · rw [if_pos hil, if_neg (byteAt_rep_ge hrest (by omega) hil)]
      exact ih (i + 1) (by omega)
    · rw [if_neg hil]

/-- The tab-detection loop of `expandTabs` on a line whose tabs form exactly
the leading run of length `p` reports `(p, false)`: the fast path applies. -/
theorem scanTabsGo_run {p : Nat} {rest : List Nat} (hrest : 9 ∉ rest) :
    ∀ (fuel j : Nat), j ≤ p →
      (List.replicate p 9 ++ rest).length ≤ fuel + j →
      scanTabsGo (List.replicate p 9 ++ rest) fuel j j = (p, false) := by
  intro fuel
  induction fuel with
  | zero =>
    intro j hj hfuel
    rw [List.length_append, List.length_replicate] at hfuel
    have hj' : j = p := by omega
    subst hj'
    rfl
  | succ f ih =>
    intro j hj hfuel
    rw [scanTabsGo]
    rcases Nat.lt_or_ge j p with hlt | hge
    · have hjl : j < (List.replicate p 9 ++ rest).length := by
        rw [List.length_append, List.length_replicate]; omega
      rw [if_pos hjl, if_pos (byteAt_rep_lt hlt), if_pos rfl]
      exact ih (j + 1) (by omega) (by omega)
    · have hjp : j = p := by omega
      rw [hjp]
      by_cases hil : p < (List.replicate p 9 ++ rest).length
      · rw [if_pos hil, if_neg (byteAt_rep_ge hrest le_rfl hil)]
        exact scanTabsGo_after hrest f (p + 1) (by omega)
      · rw [if_neg hil]

/-- On a line with no tab at all, the tab-detection loop reports `(0, false)`
from any starting state with equal position and run length. -/
theorem scanTabsGo_no_tab {line : List Nat} (hno : ∀ b ∈ line, b ≠ 9) :
    ∀ (fuel i q : Nat), scanTabsGo line fuel i q = (q, false) := by
  intro fuel
  induction fuel with
  | zero => intro i q; rfl
  | succ f ih =>
    intro i q
    rw [scanTabsGo]
    by_cases hil : i < line.length
    · rw [if_pos hil, if_neg (hno (byteAt line i) (byteAt_mem hil))]
      exact ih (i + 1) q
    · rw [if_neg hil]

/-- The Go slice from the end of the leading tab run to the end of the line
is exactly the tab-free remainder. -/
theorem subList_rep_rest (p : Nat) (rest : List Nat) :
    subList (List.replicate p 9 ++ rest) p (List.replicate p 9 ++ rest).length = rest := by
  unfold subList
  have hdrop : (List.replicate p 9 ++ rest).drop p = rest := by
    have := List.drop_left (List.replicate p 9) rest
    rwa [List.length_replicate] at this
  rw [hdrop, List.length_append, List.length_replicate]
  have : p + rest.length - p = rest.length := by omega
  rw [this, List.take_length]

/-- At the end of the leading tab run, the slow path copies the tab-free
remainder verbatim and stops. -/
theorem expandTabsSlowGo_at_run_end {p : Nat} {rest : List Nat} {ts : Nat} (hrest : 9 ∉ rest) :
    ∀ (fuel col : Nat),
      expandTabsSlowGo (List.replicate p 9 ++ rest) ts (fuel + 1) p col = rest := by
  intro fuel col
  rw [expandTabsSlowGo]
  have hlen : (List.replicate p 9 ++ rest).length = p + rest.length := by
    rw [List.length_append, List.length_replicate]
  by_cases hp : p < (List.replicate p 9 ++ rest).length
  · rw [if_pos hp]
    dsimp only
    have hr1 : (runScanGo (List.replicate p 9 ++ rest)
        ((List.replicate p 9 ++ rest).length - p) p col).1 =
        (List.replicate p 9 ++ rest).length := by
      apply runScanGo_no_tab
      · omega
      · omega
      · intro k hk1 hk2
        exact byteAt_rep_ge hrest hk1 hk2
    rw [hr1, if_neg (lt_irrefl _), subList_rep_rest]
  · rw [if_neg hp]
    have hnil : rest = [] := by
      rw [hlen] at hp
      have : rest.length = 0 := by omega
      exact List.eq_nil_of_length_eq_zero this
    rw [hnil]

/-- Inside the leading tab run with the column at a tab stop, one iteration
of the slow path emits exactly `tabSize` spaces and advances one tab. -/
theorem expandTabsSlowGo_step {p : Nat} {rest : List Nat} {ts : Nat} (hts : 0 < ts) :
    ∀ (fuel j : Nat), j < p →
      expandTabsSlowGo (List.replicate p 9 ++ rest) ts (fuel + 1) j (j * ts) =
        List.replicate ts 32 ++
          expandTabsSlowGo (List.replicate p 9 ++ rest) ts fuel (j + 1) ((j + 1) * ts) := by
  intro fuel j hj
  rw [expandTabsSlowGo]
  have hlen : j < (List.replicate p 9 ++ rest).length := by
    rw [List.length_append, List.length_replicate]; omega
  rw [if_pos hlen]
  dsimp only
  rw [runScanGo_tab (byteAt_rep_lt hj)]
  dsimp only
  rw [if_pos hlen]
  have hchunk : subList (List.replicate p 9 ++ rest) j j = [] := by
    unfold subList
    simp
  have hfill : tabFill (j * ts) ts = ts := by
    unfold tabFill
    rw [Nat.mul_mod_left]
    omega
  have hcol : j * ts + ts = (j + 1) * ts := by ring
  rw [hchunk, hfill, hcol, List.nil_append]

/-- Unrolling the slow path over the whole leading tab run: from `d` tabs
before the end of the run, with the column at the matching tab stop, the
slow path emits `d * tabSize` spaces followed by the remainder. -/
theorem expandTabsSlowGo_run {p : Nat} {rest : List Nat} {ts : Nat} (hts : 0 < ts)
    (hrest : 9 ∉ rest) :
    ∀ (d : Nat), d ≤ p → ∀ (fuel : Nat), d ≤ fuel →
      expandTabsSlowGo (List.replicate p 9 ++ rest) ts (fuel + 1) (p - d) ((p - d) * ts) =
        List.replicate (d * ts) 32 ++ rest := by
  intro d
  induction d with
  | zero =>
    intro _ fuel _
    simp only [Nat.sub_zero, Nat.zero_mul, List.replicate_zero, List.nil_append]
    exact expandTabsSlowGo_at_run_end hrest fuel (p * ts)
  | succ d ih =>
    intro hdp fuel hdf
    cases fuel with
    | zero => omega
    | succ f =>
      rw [expandTabsSlowGo_step hts (f + 1) (p - (d + 1)) (by omega)]
      have h1 : p - (d + 1) + 1 = p - d := by omega
      rw [h1, ih (by omega) f (by omega), ← List.append_assoc, ← List.replicate_add]
      have h2 : ts + d * ts = (d + 1) * ts := by ring
      rw [h2]

/-- The tab-detection loop on a line whose tabs form exactly the leading run
reports the run length and no slow case. -/
theorem scanTabs_run {p : Nat} {rest : List Nat} (hrest : 9 ∉ rest) :
    scanTabs (List.replicate p 9 ++ rest) = (p, false) := by
  unfold scanTabs
  apply scanTabsGo_run hrest _ 0 (Nat.zero_le p)
  omega

/-- C7: `expandTabs` leaves a line with no tab byte unchanged; and on every
line whose tabs form exactly a leading run, the slow (column-counting) path
and the fast (prefix-spaces) path produce byte-identical output for tab
sizes 4 and 8 — and `expandTabs` itself takes the fast path there. -/
theorem c7_expand_tabs_fast_and_slow_paths_agree :
    (∀ (line : List Nat) (tabSize : Nat), (∀ b ∈ line, b ≠ 9) →
      expandTabs line tabSize = line) ∧
    (∀ (p : Nat) (rest : List Nat) (tabSize : Nat), 9 ∉ rest →
      (tabSize = 4 ∨ tabSize = 8) →
      expandTabsSlow (List.replicate p 9 ++ rest) tabSize =
        expandTabsFast (List.replicate p 9 ++ rest) tabSize ∧
      expandTabs (List.replicate p 9 ++ rest) tabSize =
        expandTabsFast (List.replicate p 9 ++ rest) tabSize) := by
  constructor
  · intro line ts hno
    have hsc : scanTabs line = (0, false) := scanTabsGo_no_tab hno line.length 0 0
    unfold expandTabs expandTabsFast
    rw [hsc]
    simp
  · intro p rest ts hrest hts
    have hts0 : 0 < ts := by omega
    have hdrop : (List.replicate p 9 ++ rest).drop p = rest := by
      have := List.drop_left (List.replicate p 9) rest
      rwa [List.length_replicate] at this
    have hfast : expandTabsFast (List.replicate p 9 ++ rest) ts =
        List.replicate (p * ts) 32 ++ rest := by
      unfold expandTabsFast
      rw [scanTabs_run hrest]
      dsimp only
      rw [hdrop]
    have hslow : expandTabsSlow (List.replicate p 9 ++ rest) ts =
        List.replicate (p * ts) 32 ++ rest := by
      unfold expandTabsSlow
      have hp : p ≤ (List.replicate p 9 ++ rest).length := by
        rw [List.length_append, List.length_replicate]; omega
      have := expandTabsSlowGo_run hts0 hrest p le_rfl
        (List.replicate p 9 ++ rest).length (by omega)
      simpa [Nat.sub_self] using this
    refine ⟨hslow.trans hfast.symm, ?_⟩
    unfold expandTabs
    rw [scanTabs_run hrest]
    simp

/-- Witness for the tab-expansion claim: a tab-free line is unchanged, and
on the line `"\ta"` with tab size 4 the two paths agree. -/
theorem c7_expand_tabs_fast_and_slow_paths_agree_witness :
    expandTabs [97, 98] 4 = [97, 98] ∧
    (expandTabsSlow (List.replicate 1 9 ++ [97]) 4 =
        expandTabsFast (List.replicate 1 9 ++ [97]) 4 ∧
      expandTabs (List.replicate 1 9 ++ [97]) 4 =
        expandTabsFast (List.replicate 1 9 ++ [97]) 4) :=
  ⟨c7_expand_tabs_fast_and_slow_paths_agree.1 [97, 98] 4 (by decide),
   c7_expand_tabs_fast_and_slow_paths_agree.2 1 [97] 4 (by decide) (Or.inl rfl)⟩

/-- A scan never moves backwards. -/
theorem scanWhileGo_ge (l : List Nat) (stop : Nat) (p : Nat → Bool) :
    ∀ (fuel i : Nat), i ≤ scanWhileGo l stop p fuel i := by
  intro fuel
  induction fuel with
  | zero => intro i; exact le_rfl
  | succ f ih =>
    intro i
    rw [scanWhileGo]
    split
    · exact le_trans (Nat.le_succ i) (ih (i + 1))
    · exact le_rfl

/-- A scan that did not move while the stop bound was not yet reached
stopped because the predicate failed at the start position. -/
theorem scanWhile_stop {l : List Nat} {stop : Nat} {p : Nat → Bool} {i : Nat}
    (hi : i < stop) (heq : scanWhile l stop p i = i) : p (byteAt l i) = false := by
  unfold scanWhile at heq
  have hf : stop - i = (stop - i - 1) + 1 := by omega
  rw [hf, scanWhileGo] at heq
  by_contra hp
  rw [Bool.not_eq_false] at hp
  rw [if_pos ⟨hi, hp⟩] at heq
  have := scanWhileGo_ge l stop p (stop - i - 1) (i + 1)
  omega

/-- Each iteration of the non-reference branch of the first-pass loop makes
progress: the next line starts strictly after the current position, so the
fuel `input.length + 1` passed by `firstPass` always suffices and the loop
computes exactly what the Go loop computes. -/
theorem fpNextBeg_progress (input : List Nat) (beg : Nat) (h : beg < input.length) :
    beg < fpNextBeg input beg := by
  unfold fpNextBeg lineBodyEnd
  dsimp only
  have hge : beg ≤ scanWhile input input.length (fun b => b != 10 && b != 13) beg :=
    scanWhileGo_ge input input.length _ (input.length - beg) beg
  rcases Nat.eq_or_lt_of_le hge with heq | hlt
  · have hstop := scanWhile_stop h heq.symm
    simp only [Bool.and_eq_false_iff, bne_eq_false_iff_eq] at hstop
    rw [← heq]
    rcases hstop with h10 | h13
    · have h13ne : ¬(beg < input.length ∧ byteAt input beg = 13) := by
        intro hc
        rw [h10] at hc
        omega
      rw [if_neg h13ne, if_pos ⟨h, h10⟩]
      omega
    · rw [if_pos (show beg < input.length ∧ byteAt input beg = 13 from ⟨h, h13⟩)]
      split <;> omega
  · split <;> split <;> omega
